import Mathlib

/-!
Verification of the core of `pubchem_parser.py`: the name filter
(`filter_names`), the persistence layer (`Database` static methods over the
three sqlite tables `Compounds`, `TrivialNames`, `CIDNameMatches`), the
per-identifier fetch wrapper (`get_compound`) and the sequential ingestion
runner (`run_cids`).

The Python code is embedded shallowly:
  * strings are `String`, worked on through their character list `String.data`;
  * Python values that may or may not be strings (elements of a raw synonym
    sequence) are the inductive `PyVal`;
  * the sqlite file is the record `DB`: each table is a list of rows in
    insertion order, and the two `autoincrement` primary keys are kept as
    explicit `next…Id` counters (sqlite starts them at 1);
  * `None`-able values are `Option`; Python truthiness of a string is
    `pyTruthyStr`, of an optional string `pyTruthy`;
  * the remote `pubchempy` call is an oracle `fetch : Int → Option FetchResult`
    (`none` models the call raising, which `get_compound` catches);
  * the persistence call inside the runner's `try`/`except` is an oracle
    `addc : Compound → DB → Except String Bool × DB` returning the result (or
    the raised error) together with the possibly partially-modified store.
-/

/-- A raw element of a synonym sequence: Python values that are either
strings or non-strings (`isinstance(name, str)` distinguishes them). -/
inductive PyVal where
  | pstr (s : String)
  | pint (n : Int)
deriving DecidableEq

/-- Python truthiness of a string: only `""` is falsy. -/
def pyTruthyStr (s : String) : Bool := !(s == "")

/-- Python truthiness of an optional string: `None` and `""` are falsy. -/
def pyTruthy : Option String → Bool
  | none => false
  | some s => pyTruthyStr s

/-- Scans a character list for two adjacent characters satisfying `p`
(the shape of a `re.search` for a two-character pattern). -/
def hasPair (p : Char → Char → Bool) : List Char → Bool
  | c1 :: c2 :: rest => p c1 c2 || hasPair p (c2 :: rest)
  | _ => false

/-- `re.compile(r'(\d{2,}|, )').search(s)`: the string contains two adjacent
decimal digits (a run of length ≥ 2 exists iff an adjacent digit pair does)
or a comma followed by a space. -/
def patternSearch (s : String) : Bool :=
  hasPair (fun a b => a.isDigit && b.isDigit) s.data ||
  hasPair (fun a b => a == ',' && b == ' ') s.data

/-- `name.startswith('"')`. -/
def pyStartsQuote (s : String) : Bool :=
  match s.data with
  | c :: _ => c == '"'
  | [] => false

/-- `name.endswith('"')`. -/
def pyEndsQuote (s : String) : Bool :=
  match s.data.getLast? with
  | some c => c == '"'
  | none => false

/-- Python slice `name[1:-1]`: drop the first and the last character. -/
def pySlice1m1 (s : String) : String := String.mk (s.data.drop 1).dropLast

/-- `filter_names` (lines 143–154): keep the string elements, drop those the
regex matches, then strip a wrapping pair of double quotes in place.
No deduplication happens here. -/
def filter_names (names : List PyVal) : List String :=
  let filtered1 := names.filterMap fun v =>
    match v with
    | PyVal.pstr s => some s
    | PyVal.pint _ => none
  let filtered2 := filtered1.filter fun s => !(patternSearch s)
  filtered2.map fun name =>
    if pyStartsQuote name && pyEndsQuote name then pySlice1m1 name else name

/-- The compound dataclass: `cid`, `smiles`, `iupac_name`, `trivial_names`. -/
structure Compound where
  cid : Int
  smiles : String
  iupac_name : String
  trivial_names : List String
deriving DecidableEq

/-- The sqlite database: table `Compounds(CID, IUPAC, Smiles)`, table
`TrivialNames(ID autoincrement, Name)`, table
`CIDNameMatches(ID autoincrement, NameID, CID)`; rows in insertion order,
with the next autoincrement values carried explicitly. `NameID` is kept as
the `Option Int` that the Python caller passes. -/
structure DB where
  compounds : List (Int × String × String)
  names : List (Int × String)
  cidNameMatches : List (Int × Option Int × Int)
  nextNameId : Int
  nextMatchId : Int
deriving DecidableEq

/-- A freshly created database: `Database.create` on a missing file. -/
def emptyDB : DB := ⟨[], [], [], 1, 1⟩

/-- `Database.get_max_cid`: `SELECT MAX(CID) FROM Compounds`, `NULL` on an
empty table. -/
def get_max_cid (db : DB) : Option Int :=
  (db.compounds.map Prod.fst).max?

/-- `Database.trivial_name_exists`: some `TrivialNames` row has this name. -/
def trivial_name_exists (name : String) (db : DB) : Bool :=
  db.names.any fun row => row.2 == name

/-- `Database.cid_exists`: some `Compounds` row has this CID. -/
def cid_exists (cid : Int) (db : DB) : Bool :=
  db.compounds.any fun row => row.1 == cid

/-- `Database.get_trivial_name_id`: the ID of the first `TrivialNames` row
with this name, if any (`fetchone`). -/
def get_trivial_name_id (name : String) (db : DB) : Option Int :=
  (db.names.find? fun row => row.2 == name).map Prod.fst

/-- `Database.insert_trivial_name`: append a `TrivialNames` row with the next
autoincrement ID. -/
def insert_trivial_name (name : String) (db : DB) : DB :=
  { db with names := db.names ++ [(db.nextNameId, name)],
            nextNameId := db.nextNameId + 1 }

/-- `Database.insert_cid_name_match`: append a `CIDNameMatches` row with the
next autoincrement ID. -/
def insert_cid_name_match (cid : Int) (nameId : Option Int) (db : DB) : DB :=
  { db with cidNameMatches := db.cidNameMatches ++ [(db.nextMatchId, nameId, cid)],
            nextMatchId := db.nextMatchId + 1 }

/-- `Database.insert_compound`: append a `Compounds` row
`(CID, IUPAC, Smiles)`. -/
def insert_compound (c : Compound) (db : DB) : DB :=
  { db with compounds := db.compounds ++ [(c.cid, c.iupac_name, c.smiles)] }

/-- `Database.add_trivial_name` (lines 114–127): insert the name if absent,
resolve its ID, and link it to the CID — but only when the original `name`
argument is truthy (`if name:`). Returns whether the name was newly
inserted. -/
def add_trivial_name (name : String) (cid : Int) (db : DB) : Bool × DB :=
  let step1 :=
    if !(trivial_name_exists name db) then (true, insert_trivial_name name db)
    else (false, db)
  let name_id := get_trivial_name_id name step1.2
  let db2 :=
    if pyTruthyStr name then insert_cid_name_match cid name_id step1.2
    else step1.2
  (step1.1, db2)

/-- `Database.add_compound` (lines 129–140): report `false` if the CID is
already stored; otherwise insert the compound row, add every trivial name,
and report `true`. -/
def add_compound (c : Compound) (db : DB) : Bool × DB :=
  if cid_exists c.cid db then (false, db)
  else
    let db1 := insert_compound c db
    let db2 := c.trivial_names.foldl (fun d n => (add_trivial_name n c.cid d).2) db1
    (true, db2)

/-- What a successful `pcp.Compound.from_cid` call exposes:
`canonical_smiles` and `iupac_name` may be `None`, `synonyms` is a raw
sequence of values. -/
structure FetchResult where
  smiles : Option String
  iupac : Option String
  synonyms : List PyVal
deriving DecidableEq

/-- `get_compound` (lines 157–180): call the remote service (`none` models the
call raising, caught by the `try`/`except`), filter and deduplicate the
synonyms (`tuple(set(filter_names(...)))`), and build a `Compound` only when
both `smiles` and `iupac_name` are truthy; otherwise return `None`. -/
def get_compound (fetch : Int → Option FetchResult) (cid : Int) : Option Compound :=
  match fetch cid with
  | none => none
  | some r =>
    let trivial_names := (filter_names r.synonyms).dedup
    if pyTruthy r.smiles && pyTruthy r.iupac then
      some ⟨cid, r.smiles.getD "", r.iupac.getD "", trivial_names⟩
    else
      none

/-- One iteration of the `run_cids` loop body for one `cid`: fetch, and if a
compound was obtained try to persist it; a raised persistence error is
caught and leaves `resp = False` with whatever state the failed call
produced. Result: `(resp, new state)`. -/
def runStep (fetch : Int → Option FetchResult)
    (addc : Compound → DB → Except String Bool × DB) (cid : Int) (db : DB) :
    Bool × DB :=
  match get_compound fetch cid with
  | none => (false, db)
  | some c =>
    match addc c db with
    | (Except.ok b, db1) => (b, db1)
    | (Except.error _, db1) => (false, db1)

/-- The `for cid in range(...)` loop of `run_cids`, with the list of CIDs
still to process, the current store and the accumulated `broken_cids`.
Returns the trace of CIDs processed in order, the final `broken_cids`, and
the final store. -/
def runLoop (fetch : Int → Option FetchResult)
    (addc : Compound → DB → Except String Bool × DB) :
    List Int → DB → List Int → List Int × List Int × DB
  | [], _db, broken => ([], broken, _db)
  | cid :: rest, db, broken =>
    let s := runStep fetch addc cid db
    let broken1 := if s.1 then broken else broken ++ [cid]
    let r := runLoop fetch addc rest s.2 broken1
    (cid :: r.1, r.2.1, r.2.2)

/-- Python `range(a, b)` as a list of integers. -/
def pyRange (a b : Int) : List Int :=
  (List.range (b - a).toNat).map fun i : Nat => a + (i : Int)

/-- `start_cid = max_cid + 1 if max_cid else 1`: Python truthiness makes both
`None` and `0` fall to the `else` branch. -/
def start_cid (db : DB) : Int :=
  match get_max_cid db with
  | some m => if m ≠ 0 then m + 1 else 1
  | none => 1

/-- The run report printed at the end of `run_cids`: the processed CIDs in
order, the `OK` count `count - len(broken_cids)`, the `broken_cids` list and
the final store. -/
structure Report where
  trace : List Int
  okCount : Int
  brokenCids : List Int
  finalDb : DB
deriving DecidableEq

/-- `run_cids` (lines 183–214): determine the start CID from the stored
maximum, loop over `range(start_cid, start_cid + count)` and aggregate the
report. -/
def run_cids (fetch : Int → Option FetchResult)
    (addc : Compound → DB → Except String Bool × DB) (db : DB) (count : Int) :
    Report :=
  let start := start_cid db
  let r := runLoop fetch addc (pyRange start (start + count)) db []
  ⟨r.1, count - (r.2.1.length : Int), r.2.1, r.2.2⟩

/-- The global name-uniqueness invariant of the store: the name strings of
the `TrivialNames` rows are pairwise distinct, i.e. each distinct name
string has at most one stored identity. -/
def NameUnique (db : DB) : Prop :=
  db.names.Pairwise fun a b => a.2 ≠ b.2

/-! ### Helper lemmas about the regex scan -/

lemma hasPair_cons_false {p : Char → Char → Bool} {c : Char} {l : List Char}
    (h : hasPair p (c :: l) = false) : hasPair p l = false := by
  cases l with
  | nil => rfl
  | cons c2 r =>
    simp only [hasPair, Bool.or_eq_false_iff] at h
    exact h.2

lemma hasPair_drop_one {p : Char → Char → Bool} {l : List Char}
    (h : hasPair p l = false) : hasPair p (l.drop 1) = false := by
  cases l with
  | nil => rfl
  | cons c r => exact hasPair_cons_false h

lemma hasPair_dropLast {p : Char → Char → Bool} {l : List Char}
    (h : hasPair p l = false) : hasPair p l.dropLast = false := by
  induction l with
  | nil => rfl
  | cons c rest ih =>
    cases rest with
    | nil => rfl
    | cons c2 r2 =>
      simp only [hasPair, Bool.or_eq_false_iff] at h
      have h2 := ih h.2
      cases r2 with
      | nil => rfl
      | cons c3 r3 =>
        simp only [List.dropLast_cons₂, hasPair, Bool.or_eq_false_iff] at h2 ⊢
        exact ⟨h.1, h2⟩

lemma patternSearch_pySlice1m1 {name : String}
    (h : patternSearch name = false) : patternSearch (pySlice1m1 name) = false := by
  simp only [patternSearch, Bool.or_eq_false_iff] at h ⊢
  exact ⟨hasPair_dropLast (hasPair_drop_one h.1),
         hasPair_dropLast (hasPair_drop_one h.2)⟩

/-! ### C1 and its amendment -/

/-- C1 (counterexample): `filter_names` does not deduplicate — on the input
`["Acetone", "Acetone"]` both occurrences survive, so its output is not
duplicate-free as the claim states. -/
theorem filter_names_duplicates_cex :
    filter_names [PyVal.pstr "Acetone", PyVal.pstr "Acetone"]
      = ["Acetone", "Acetone"] ∧
    ¬ (filter_names [PyVal.pstr "Acetone", PyVal.pstr "Acetone"]).Nodup := by
  constructor
  · decide
  · decide

/-- C1 (amended): every element of the output of `filter_names` is a string
that contains no run of two or more consecutive digits and no comma-space,
and it arises from a string element of the input (non-strings are dropped),
possibly with one wrapping pair of double quotes stripped. Duplicates,
however, may survive: deduplication happens in `get_compound`
(`tuple(set(...))`), not in `filter_names`. -/
theorem filter_names_clean (ns : List PyVal) (s : String)
    (hs : s ∈ filter_names ns) :
    patternSearch s = false ∧
    ∃ t : String, PyVal.pstr t ∈ ns ∧ patternSearch t = false ∧
      (s = t ∨ s = pySlice1m1 t) := by
  simp only [filter_names, List.mem_map, List.mem_filter, List.mem_filterMap] at hs
  obtain ⟨name, ⟨⟨v, hv, hmatch⟩, hpat⟩, hf⟩ := hs
  have hname : PyVal.pstr name ∈ ns := by
    cases v with
    | pstr t => simp only [Option.some_inj] at hmatch; exact hmatch ▸ hv
    | pint k => exact absurd hmatch (by simp)
  have hpat2 : patternSearch name = false := by
    simpa using hpat
  have hs2 : s = name ∨ s = pySlice1m1 name := by
    by_cases hq : (pyStartsQuote name && pyEndsQuote name) = true
    · right; rw [← hf, if_pos hq]
    · left; rw [← hf, if_neg hq]
  refine ⟨?_, name, hname, hpat2, hs2⟩
  rcases hs2 with h | h
  · exact h ▸ hpat2
  · exact h ▸ patternSearch_pySlice1m1 hpat2

/-- Witness for `filter_names_clean` at a concrete input. -/
theorem filter_names_clean_witness :
    "quoted" ∈ filter_names [PyVal.pstr "\"quoted\"", PyVal.pint 7] ∧
    (patternSearch "quoted" = false ∧
     ∃ t : String, PyVal.pstr t ∈ [PyVal.pstr "\"quoted\"", PyVal.pint 7] ∧
       patternSearch t = false ∧ ("quoted" = t ∨ "quoted" = pySlice1m1 t)) :=
  ⟨by decide, filter_names_clean [PyVal.pstr "\"quoted\"", PyVal.pint 7] "quoted" (by decide)⟩

/-! ### C8: the concrete example -/

/-- C8: on `["Acetone", "Acetone", 123, "CAS 67-64-1", "\"quoted\""]` the set
of elements of the result of `filter_names` is exactly
`{"Acetone", "quoted"}`: the integer is dropped, the registry-number-like
string is dropped for its digit run, and the quoted string is unwrapped. -/
theorem filter_names_acetone_example :
    (filter_names [PyVal.pstr "Acetone", PyVal.pstr "Acetone", PyVal.pint 123,
        PyVal.pstr "CAS 67-64-1", PyVal.pstr "\"quoted\""]).toFinset
      = ({"Acetone", "quoted"} : Finset String) := by
  decide

/-! ### C10: the empty string can come out of the filter -/

/-- C10: `filter_names` can output the empty string — a lone double-quote
character (and likewise two double quotes) starts and ends with a quote,
survives the digit/comma filter, and is stripped to `""`. -/
theorem filter_names_empty_string_output :
    filter_names [PyVal.pstr "\""] = [""] ∧
    filter_names [PyVal.pstr "\"\""] = [""] ∧
    "" ∈ filter_names [PyVal.pstr "\""] := by
  decide

/-! ### C4 and its amendment, C9: the truthiness guard on `add_trivial_name` -/

/-- C4 (counterexample): with the empty name on an empty store, the name row
is inserted and its identity resolves to `1`, yet no `CIDNameMatches` row is
created — the link step is skipped, not attempted, contrary to the claim. -/
theorem add_trivial_name_empty_no_link_cex :
    (add_trivial_name "" 5 emptyDB).2.cidNameMatches = [] ∧
    get_trivial_name_id "" (add_trivial_name "" 5 emptyDB).2 = some 1 := by
  decide

/-- C4 (amended): for every call of `add_trivial_name` with the falsy (empty)
name, the link step is skipped — the `CIDNameMatches` table is unchanged —
because the guard `if name:` checks the truthiness of the original `name`
argument, which fails for `""` even when the name has a resolved identity. -/
theorem add_trivial_name_empty_skips_link (cid : Int) (db : DB) :
    (add_trivial_name "" cid db).2.cidNameMatches = db.cidNameMatches := by
  have hfalse : pyTruthyStr "" = false := by decide
  unfold add_trivial_name
  simp only [hfalse, Bool.false_eq_true, if_false]
  split <;> rfl

/-- Witness for `add_trivial_name_empty_skips_link` at a concrete input. -/
theorem add_trivial_name_empty_skips_link_witness :
    (add_trivial_name "" 5 (insert_trivial_name "x" emptyDB)).2.cidNameMatches
      = (insert_trivial_name "x" emptyDB).cidNameMatches :=
  add_trivial_name_empty_skips_link 5 (insert_trivial_name "x" emptyDB)

/-- C9: a call of `add_trivial_name` with the empty name on a store that has
no identity for it still inserts a `TrivialNames` row for `""` and returns
`true`, while the `CIDNameMatches` table is unchanged — the truthiness guard
skips only the link step, not the name insertion. -/
theorem add_trivial_name_empty_inserts (cid : Int) (db : DB)
    (h : trivial_name_exists "" db = false) :
    (add_trivial_name "" cid db).1 = true ∧
    (add_trivial_name "" cid db).2.names = db.names ++ [(db.nextNameId, "")] ∧
    (add_trivial_name "" cid db).2.cidNameMatches = db.cidNameMatches := by
  have hfalse : pyTruthyStr "" = false := by decide
  unfold add_trivial_name
  simp only [h, Bool.not_false, if_true, hfalse, Bool.false_eq_true, if_false]
  exact ⟨trivial, rfl, rfl⟩

/-- Witness for `add_trivial_name_empty_inserts` at a concrete input. -/
theorem add_trivial_name_empty_inserts_witness :
    trivial_name_exists "" emptyDB = false ∧
    ((add_trivial_name "" 7 emptyDB).1 = true ∧
     (add_trivial_name "" 7 emptyDB).2.names
        = emptyDB.names ++ [(emptyDB.nextNameId, "")] ∧
     (add_trivial_name "" 7 emptyDB).2.cidNameMatches = emptyDB.cidNameMatches) :=
  ⟨by decide, add_trivial_name_empty_inserts 7 emptyDB (by decide)⟩

/-! ### C2: idempotence of `add_compound` per CID -/

lemma add_trivial_name_compounds (n : String) (cid : Int) (d : DB) :
    (add_trivial_name n cid d).2.compounds = d.compounds := by
  unfold add_trivial_name
  split <;> split <;> rfl

lemma foldl_add_trivial_name_compounds (l : List String) (cid : Int) (d : DB) :
    (l.foldl (fun d n => (add_trivial_name n cid d).2) d).compounds = d.compounds := by
  induction l generalizing d with
  | nil => rfl
  | cons n rest ih => rw [List.foldl_cons, ih, add_trivial_name_compounds]

lemma add_compound_compounds_of_new (c : Compound) (db : DB)
    (h : cid_exists c.cid db = false) :
    (add_compound c db).2.compounds = db.compounds ++ [(c.cid, c.iupac_name, c.smiles)] := by
  unfold add_compound
  rw [h]
  simp only [Bool.false_eq_true, if_false]
  rw [foldl_add_trivial_name_compounds]
  rfl

/-- C2: `add_compound` is idempotent per CID — on a store without the CID the
first call returns `true`, and a second call with any compound carrying the
same CID returns `false`, leaves the whole store state unchanged, and in
particular appends no further `Compounds` rows. -/
theorem add_compound_idempotent (c c2 : Compound) (db : DB)
    (h : cid_exists c.cid db = false) (hcid : c2.cid = c.cid) :
    (add_compound c db).1 = true ∧
    (add_compound c2 (add_compound c db).2).1 = false ∧
    (add_compound c2 (add_compound c db).2).2 = (add_compound c db).2 ∧
    (add_compound c2 (add_compound c db).2).2.compounds = (add_compound c db).2.compounds := by
  have h2 : cid_exists c2.cid (add_compound c db).2 = true := by
    unfold cid_exists
    rw [add_compound_compounds_of_new c db h]
    simp [hcid]
  have hfirst : (add_compound c db).1 = true := by
    unfold add_compound
    rw [h]
    simp
  have hgen : ∀ (d : DB), cid_exists c2.cid d = true → add_compound c2 d = (false, d) := by
    intro d hd
    unfold add_compound
    rw [hd]
    simp
  have hsecond : add_compound c2 (add_compound c db).2 = (false, (add_compound c db).2) :=
    hgen _ h2
  exact ⟨hfirst, by rw [hsecond], by rw [hsecond], by rw [hsecond]⟩

/-- Witness for `add_compound_idempotent` at a concrete input. -/
theorem add_compound_idempotent_witness :
    cid_exists 1 emptyDB = false ∧
    ((add_compound ⟨1, "s", "i", ["Water"]⟩ emptyDB).1 = true ∧
     (add_compound ⟨1, "s2", "i2", []⟩ (add_compound ⟨1, "s", "i", ["Water"]⟩ emptyDB).2).1 = false ∧
     (add_compound ⟨1, "s2", "i2", []⟩ (add_compound ⟨1, "s", "i", ["Water"]⟩ emptyDB).2).2
        = (add_compound ⟨1, "s", "i", ["Water"]⟩ emptyDB).2 ∧
     (add_compound ⟨1, "s2", "i2", []⟩ (add_compound ⟨1, "s", "i", ["Water"]⟩ emptyDB).2).2.compounds
        = (add_compound ⟨1, "s", "i", ["Water"]⟩ emptyDB).2.compounds) :=
  ⟨by decide, add_compound_idempotent ⟨1, "s", "i", ["Water"]⟩ ⟨1, "s2", "i2", []⟩ emptyDB (by decide) rfl⟩

/-! ### C3: global name uniqueness -/

lemma add_trivial_name_names (nm : String) (cid : Int) (db : DB) :
    (add_trivial_name nm cid db).2.names =
      if trivial_name_exists nm db then db.names
      else db.names ++ [(db.nextNameId, nm)] := by
  unfold add_trivial_name
  cases hex : trivial_name_exists nm db <;>
    simp only [hex, Bool.not_true, Bool.not_false, Bool.false_eq_true, if_false, if_true] <;>
    split <;> rfl

lemma notMem_of_trivial_name_exists_false {nm : String} {db : DB}
    (h : trivial_name_exists nm db = false) :
    ∀ row ∈ db.names, row.2 ≠ nm := by
  intro row hrow heq
  unfold trivial_name_exists at h
  rw [List.any_eq_false] at h
  have := h row hrow
  simp [heq] at this

lemma nameUnique_add_trivial_name (nm : String) (cid : Int) (db : DB)
    (hu : NameUnique db) : NameUnique (add_trivial_name nm cid db).2 := by
  unfold NameUnique
  rw [add_trivial_name_names]
  cases hex : trivial_name_exists nm db
  · simp only [Bool.false_eq_true, if_false]
    rw [List.pairwise_append]
    refine ⟨hu, List.pairwise_singleton _ _, ?_⟩
    intro a ha b hb
    simp only [List.mem_singleton] at hb
    subst hb
    exact notMem_of_trivial_name_exists_false hex a ha
  · simp only [if_true]
    exact hu

lemma nameUnique_foldl (l : List String) (cid : Int) (d : DB)
    (hu : NameUnique d) :
    NameUnique (l.foldl (fun d n => (add_trivial_name n cid d).2) d) := by
  induction l generalizing d with
  | nil => exact hu
  | cons n rest ih =>
    rw [List.foldl_cons]
    exact ih _ (nameUnique_add_trivial_name n cid d hu)

lemma nameUnique_add_compound (c : Compound) (db : DB) (hu : NameUnique db) :
    NameUnique (add_compound c db).2 := by
  unfold add_compound
  split
  · exact hu
  · exact nameUnique_foldl _ _ _ hu

/-- C3: name uniqueness is preserved by `add_trivial_name` and
`add_compound`, and adding two compounds with different CIDs that share one
(truthy) trivial name to a fresh store yields exactly one `TrivialNames`
row for that name and two distinct `CIDNameMatches` rows, both pointing at
that single name identity, one per compound. -/
theorem name_uniqueness_invariant (db : DB) (nm : String) (cid : Int) (c : Compound)
    (n s1 i1 s2 i2 : String) (cid1 cid2 : Int)
    (hu : NameUnique db) (hn : n ≠ "") (hc : cid1 ≠ cid2) :
    NameUnique (add_trivial_name nm cid db).2 ∧
    NameUnique (add_compound c db).2 ∧
    (add_compound ⟨cid2, s2, i2, [n]⟩ (add_compound ⟨cid1, s1, i1, [n]⟩ emptyDB).2).2.names
      = [(1, n)] ∧
    (add_compound ⟨cid2, s2, i2, [n]⟩ (add_compound ⟨cid1, s1, i1, [n]⟩ emptyDB).2).2.cidNameMatches
      = [(1, some 1, cid1), (2, some 1, cid2)] := by
  refine ⟨nameUnique_add_trivial_name nm cid db hu,
          nameUnique_add_compound c db hu, ?_, ?_⟩ <;>
    simp [add_compound, add_trivial_name, cid_exists, trivial_name_exists,
      get_trivial_name_id, insert_compound, insert_trivial_name,
      insert_cid_name_match, emptyDB, pyTruthyStr, beq_iff_eq, hn, hc]

/-- Witness for `name_uniqueness_invariant` at a concrete input. -/
theorem name_uniqueness_invariant_witness :
    (add_compound ⟨2, "s2", "i2", ["Water"]⟩
        (add_compound ⟨1, "s1", "i1", ["Water"]⟩ emptyDB).2).2.names
      = [(1, "Water")] ∧
    (add_compound ⟨2, "s2", "i2", ["Water"]⟩
        (add_compound ⟨1, "s1", "i1", ["Water"]⟩ emptyDB).2).2.cidNameMatches
      = [(1, some 1, 1), (2, some 1, 2)] :=
  have h := name_uniqueness_invariant emptyDB "x" 3 ⟨9, "s", "i", []⟩
    "Water" "s1" "i1" "s2" "i2" 1 2 List.Pairwise.nil (by decide) (by decide)
  ⟨h.2.2.1, h.2.2.2⟩

/-! ### C5: the runner attempts exactly the contiguous range -/

lemma runLoop_trace (fetch : Int → Option FetchResult)
    (addc : Compound → DB → Except String Bool × DB)
    (l : List Int) (db : DB) (acc : List Int) :
    (runLoop fetch addc l db acc).1 = l := by
  induction l generalizing db acc with
  | nil => rfl
  | cons cid rest ih => simp only [runLoop, ih]

lemma mem_pyRange (a b x : Int) : x ∈ pyRange a b ↔ a ≤ x ∧ x < b := by
  unfold pyRange
  rw [List.mem_map]
  constructor
  · rintro ⟨i, hi, rfl⟩
    rw [List.mem_range] at hi
    omega
  · rintro ⟨h1, h2⟩
    refine ⟨(x - a).toNat, ?_, ?_⟩
    · rw [List.mem_range]; omega
    · omega

lemma pyRange_length (a b : Int) : (pyRange a b).length = (b - a).toNat := by
  unfold pyRange
  rw [List.length_map, List.length_range]

lemma pyRange_pairwise (a b : Int) : (pyRange a b).Pairwise (· < ·) := by
  unfold pyRange
  refine List.Pairwise.map (fun i : ℕ => a + (i : Int)) ?_ (List.pairwise_lt_range _)
  intro i j hij
  show a + (i : Int) < a + (j : Int)
  omega

/-- C5: for every positive `count`, `run_cids` starts at
`(max_known_id or 0) + 1` and processes exactly the CIDs of the contiguous
range `[start, start + count)`, each exactly once, in strictly ascending
order, skipping none — the processed trace does not depend on the fetcher
or on the persistence outcome at all. -/
theorem run_cids_attempted_range (fetch : Int → Option FetchResult)
    (addc : Compound → DB → Except String Bool × DB) (db : DB) (count : Int)
    (hc : 0 < count) :
    start_cid db = (get_max_cid db).getD 0 + 1 ∧
    (run_cids fetch addc db count).trace
      = pyRange (start_cid db) (start_cid db + count) ∧
    (run_cids fetch addc db count).trace.length = count.toNat ∧
    ((run_cids fetch addc db count).trace).Pairwise (· < ·) ∧
    (∀ cid : Int, cid ∈ (run_cids fetch addc db count).trace ↔
        start_cid db ≤ cid ∧ cid < start_cid db + count) ∧
    (∀ cid : Int, cid ∈ (run_cids fetch addc db count).trace →
        ((run_cids fetch addc db count).trace).count cid = 1) := by
  have htr : (run_cids fetch addc db count).trace
      = pyRange (start_cid db) (start_cid db + count) := by
    unfold run_cids
    exact runLoop_trace _ _ _ _ _
  have hstart : start_cid db = (get_max_cid db).getD 0 + 1 := by
    unfold start_cid
    cases get_max_cid db with
    | none => rfl
    | some m =>
      by_cases hm : m = 0
      · subst hm; rfl
      · simp [hm]
  have hpw : ((run_cids fetch addc db count).trace).Pairwise (· < ·) := by
    rw [htr]; exact pyRange_pairwise _ _
  refine ⟨hstart, htr, ?_, hpw, ?_, ?_⟩
  · rw [htr, pyRange_length]
    omega
  · intro cid
    rw [htr]
    exact mem_pyRange _ _ _
  · intro cid hmem
    exact List.count_eq_one_of_mem (hpw.imp fun h => by omega) hmem

/-- Witness for `run_cids_attempted_range` at a concrete input. -/
theorem run_cids_attempted_range_witness :
    (0 : Int) < 2 ∧
    (run_cids (fun _ => none) (fun _ d => (Except.ok false, d)) emptyDB 2).trace
      = pyRange (start_cid emptyDB) (start_cid emptyDB + 2) :=
  ⟨by decide,
   (run_cids_attempted_range (fun _ => none) (fun _ d => (Except.ok false, d))
      emptyDB 2 (by decide)).2.1⟩

/-! ### C6: records missing required fields are rejected -/

lemma runLoop_broken_mono (fetch : Int → Option FetchResult)
    (addc : Compound → DB → Except String Bool × DB)
    (l : List Int) (db : DB) (acc : List Int) (x : Int) (hx : x ∈ acc) :
    x ∈ (runLoop fetch addc l db acc).2.1 := by
  induction l generalizing db acc with
  | nil => exact hx
  | cons cid rest ih =>
    simp only [runLoop]
    apply ih
    split
    · exact hx
    · exact List.mem_append_left _ hx

lemma runLoop_broken_of_false (fetch : Int → Option FetchResult)
    (addc : Compound → DB → Except String Bool × DB) (cid : Int)
    (h : ∀ d : DB, (runStep fetch addc cid d).1 = false)
    (l : List Int) (db : DB) (acc : List Int) (hcid : cid ∈ l) :
    cid ∈ (runLoop fetch addc l db acc).2.1 := by
  induction l generalizing db acc with
  | nil => cases hcid
  | cons c rest ih =>
    rcases List.mem_cons.mp hcid with hc | hc
    · subst hc
      simp only [runLoop, h db, Bool.false_eq_true, if_false]
      exact runLoop_broken_mono _ _ _ _ _ _ (List.mem_append_right _ (List.mem_singleton_self _))
    · simp only [runLoop]
      exact ih _ _ hc

/-- C6: a fetched record whose `canonical_smiles` or `iupac_name` is missing
(falsy) is treated as a failed fetch: `get_compound` returns `None`, the
per-CID step leaves the store untouched and reports not-added, and in every
run whose range reaches that CID the CID lands in the broken list of the
report. -/
theorem missing_fields_not_persisted (fetch : Int → Option FetchResult)
    (addc : Compound → DB → Except String Bool × DB) (cid : Int) (r : FetchResult)
    (hf : fetch cid = some r)
    (hm : pyTruthy r.smiles = false ∨ pyTruthy r.iupac = false) :
    get_compound fetch cid = none ∧
    (∀ db : DB, runStep fetch addc cid db = (false, db)) ∧
    (∀ (db : DB) (count : Int), cid ∈ (run_cids fetch addc db count).trace →
        cid ∈ (run_cids fetch addc db count).brokenCids) := by
  have hget : get_compound fetch cid = none := by
    unfold get_compound
    rw [hf]
    rcases hm with h | h <;> simp [h]
  have hstep : ∀ db : DB, runStep fetch addc cid db = (false, db) := by
    intro db
    unfold runStep
    rw [hget]
  refine ⟨hget, hstep, ?_⟩
  intro db count hmem
  simp only [run_cids] at hmem ⊢
  rw [runLoop_trace] at hmem
  exact runLoop_broken_of_false fetch addc cid (fun d => by rw [hstep d]) _ db [] hmem

/-- Witness for `missing_fields_not_persisted` at a concrete input. -/
theorem missing_fields_not_persisted_witness :
    (fun _ : Int => some (⟨some "C", none, []⟩ : FetchResult)) 1
        = some (⟨some "C", none, []⟩ : FetchResult) ∧
    get_compound (fun _ : Int => some (⟨some "C", none, []⟩ : FetchResult)) 1 = none :=
  ⟨rfl,
   (missing_fields_not_persisted (fun _ => some ⟨some "C", none, []⟩)
      (fun _ d => (Except.ok true, d)) 1 ⟨some "C", none, []⟩ rfl (Or.inr rfl)).1⟩

/-! ### C7: storage errors are caught per CID and the run never aborts -/

/-- C7: if `add_compound` raises on the compound of some CID, the error is
caught at the per-CID boundary: the loop on `cid :: rest` marks exactly that
CID not-added (appends it to `broken_cids`), keeps whatever store state the
failed call produced, and continues with `rest`; and regardless of the
fetcher or of storage errors, a run still processes its whole CID range —
the only aggregate effect of the error is the broken-list entry. -/
theorem storage_error_contained (fetch : Int → Option FetchResult)
    (addc : Compound → DB → Except String Bool × DB) (cid : Int)
    (rest : List Int) (db : DB) (acc : List Int) (c : Compound) (e : String)
    (db1 : DB)
    (h1 : get_compound fetch cid = some c)
    (h2 : addc c db = (Except.error e, db1)) :
    runLoop fetch addc (cid :: rest) db acc
      = (cid :: (runLoop fetch addc rest db1 (acc ++ [cid])).1,
         (runLoop fetch addc rest db1 (acc ++ [cid])).2) ∧
    (∀ (db0 : DB) (count : Int),
        (run_cids fetch addc db0 count).trace
          = pyRange (start_cid db0) (start_cid db0 + count)) := by
  have hstep : runStep fetch addc cid db = (false, db1) := by
    simp only [runStep, h1, h2]
  constructor
  · simp only [runLoop, hstep, Bool.false_eq_true, if_false]
  · intro db0 count
    unfold run_cids
    exact runLoop_trace _ _ _ _ _

/-- Witness for `storage_error_contained` at a concrete input. -/
theorem storage_error_contained_witness :
    get_compound (fun _ : Int => some ⟨some "C", some "acetone", []⟩) 5
        = some ⟨5, "C", "acetone", []⟩ ∧
    (run_cids (fun _ : Int => some ⟨some "C", some "acetone", []⟩)
        (fun _ d => (Except.error "boom", d)) emptyDB 1).trace
      = pyRange (start_cid emptyDB) (start_cid emptyDB + 1) :=
  ⟨by decide,
   (storage_error_contained (fun _ => some ⟨some "C", some "acetone", []⟩)
      (fun _ d => (Except.error "boom", d)) 5 [] emptyDB []
      ⟨5, "C", "acetone", []⟩ "boom" emptyDB (by decide) rfl).2 emptyDB 1⟩
